import Mathlib

/-!
Shallow embedding of `src/main.cpp`: an in-memory JSON value tree
(JsonNull, JsonBoolean, JsonString, JsonNumber, JsonObject, JsonArray)
with a recursive `toString` serializer, plus the two construction
operations `JsonObject::add` and `JsonArray::add`.

The C++ type `double`, whose iostream rendering (`ss << value_`) is
host-defined, is abstracted by a type parameter `Dbl` together with a
rendering function `dblToString : Dbl → String`.

`JsonObject` is backed by a `std::unordered_map`; we represent the map
by the list of its key-value pairs in iteration order.  Iteration order
is unspecified in C++; the claims proved below about objects hold for
every iteration order because they quantify over the whole list.
-/

namespace JsonCpp

/-- The closed `JsonValue` hierarchy of `src/main.cpp`.  One constructor
per concrete subclass: `JsonNull`, `JsonBoolean` (payload `bool value_`),
`JsonString` (payload `std::string value_`), `JsonNumber` (payload
`double value_`, abstracted by `Dbl`), `JsonObject` (payload
`std::unordered_map<std::string, std::unique_ptr<JsonValue>> properties_`,
represented as its entries in iteration order) and `JsonArray` (payload
`std::vector<std::unique_ptr<JsonValue>> values_`). -/
inductive JsonValue (Dbl : Type) where
  | jnull : JsonValue Dbl
  | jboolean (value : Bool) : JsonValue Dbl
  | jstring (value : String) : JsonValue Dbl
  | jnumber (value : Dbl) : JsonValue Dbl
  | jobject (properties : List (String × JsonValue Dbl)) : JsonValue Dbl
  | jarray (values : List (JsonValue Dbl)) : JsonValue Dbl

variable (Dbl : Type) (dblToString : Dbl → String)

mutual

/-- The virtual `toString` method, one equation per override:
`JsonNull::toString` returns `"null"`; `JsonBoolean::toString` prints the
payload with `std::boolalpha`; `JsonString::toString` returns
`"\"" + value_ + "\""`; `JsonNumber::toString` streams the double with the
host default formatting; `JsonObject::toString` streams `'{'`, then the
loop body for each entry, then `'}'`; `JsonArray::toString` streams `'['`,
then the loop body for each element, then `']'`. -/
def JsonValue.toString : JsonValue Dbl → String
  | .jnull => "null"
  | .jboolean b => if b then "true" else "false"
  | .jstring s => "\"" ++ s ++ "\""
  | .jnumber d => dblToString d
  | .jobject props => "\x7b" ++ propsToString props ++ "\x7d"
  | .jarray vs => "[" ++ elemsToString vs ++ "]"

/-- The loop of `JsonObject::toString`: for each entry,
`ss << key << ':' << value->toString() << ','`. -/
def propsToString : List (String × JsonValue Dbl) → String
  | [] => ""
  | (k, v) :: rest => k ++ ":" ++ JsonValue.toString v ++ "," ++ propsToString rest

/-- The loop of `JsonArray::toString`: for each element,
`ss << value->toString() << ','`. -/
def elemsToString : List (JsonValue Dbl) → String
  | [] => ""
  | v :: rest => JsonValue.toString v ++ "," ++ elemsToString rest

end

/-- `JsonObject::add`: `properties_.insert({name, value})`.
`std::unordered_map::insert` inserts the pair only when no entry with the
same key is present; on a duplicate key it leaves the map unchanged and
discards the argument.  The position a fresh key takes in iteration order
is unspecified; we place it at the end of the representing list. -/
def JsonObject.add (properties : List (String × JsonValue Dbl)) (name : String)
    (value : JsonValue Dbl) : List (String × JsonValue Dbl) :=
  if properties.any (fun p => p.1 == name) then properties
  else properties ++ [(name, value)]

/-- `JsonArray::add`: `values_.push_back(std::move(value))` appends the
value at the end of the vector. -/
def JsonArray.add (values : List (JsonValue Dbl)) (value : JsonValue Dbl) :
    List (JsonValue Dbl) :=
  values ++ [value]

mutual

/-- Instrumented model of the `const` method call `value.toString()`: it
returns the produced string together with the receiver tree as it stands
after the call.  Each equation mirrors the corresponding override of
`toString` in `src/main.cpp`, which only reads the receiver (the method is
`const` and the loops bind `const` references), so each equation rebuilds
the node from the children returned by the recursive calls. -/
def toStringM : JsonValue Dbl → String × JsonValue Dbl
  | .jnull => ("null", .jnull)
  | .jboolean b => ((if b then "true" else "false"), .jboolean b)
  | .jstring s => ("\"" ++ s ++ "\"", .jstring s)
  | .jnumber d => (dblToString d, .jnumber d)
  | .jobject props =>
      let r := propsToStringM props
      ("\x7b" ++ r.1 ++ "\x7d", .jobject r.2)
  | .jarray vs =>
      let r := elemsToStringM vs
      ("[" ++ r.1 ++ "]", .jarray r.2)

/-- Instrumented loop of `JsonObject::toString`. -/
def propsToStringM : List (String × JsonValue Dbl) → String × List (String × JsonValue Dbl)
  | [] => ("", [])
  | (k, v) :: rest =>
      let rv := toStringM v
      let rr := propsToStringM rest
      (k ++ ":" ++ rv.1 ++ "," ++ rr.1, (k, rv.2) :: rr.2)

/-- Instrumented loop of `JsonArray::toString`. -/
def elemsToStringM : List (JsonValue Dbl) → String × List (JsonValue Dbl)
  | [] => ("", [])
  | v :: rest =>
      let rv := toStringM v
      let rr := elemsToStringM rest
      (rv.1 ++ "," ++ rr.1, rv.2 :: rr.2)

end

mutual

/-- Recursion depth of `toString` on a tree: leaves need one stack frame,
a composite needs one frame more than the deepest child reached through
its serialization loop. -/
def height : JsonValue Dbl → Nat
  | .jnull => 0
  | .jboolean _ => 0
  | .jstring _ => 0
  | .jnumber _ => 0
  | .jobject props => heightProps props + 1
  | .jarray vs => heightElems vs + 1

/-- Depth of the deepest value stored in an object entry list. -/
def heightProps : List (String × JsonValue Dbl) → Nat
  | [] => 0
  | (_, v) :: rest => max (height v) (heightProps rest)

/-- Depth of the deepest value stored in an array element list. -/
def heightElems : List (JsonValue Dbl) → Nat
  | [] => 0
  | v :: rest => max (height v) (heightElems rest)

end

mutual

/-- Fuel-bounded version of `toString`: the fuel counts the call-stack
frames the C++ recursion may consume, so one unit is spent per `toString`
call and the serialization loops run within the caller's frame.  Running
out of fuel yields `none`. -/
def toStringFuel : Nat → JsonValue Dbl → Option String
  | 0, _ => none
  | _ + 1, .jnull => some "null"
  | _ + 1, .jboolean b => some (if b then "true" else "false")
  | _ + 1, .jstring s => some ("\"" ++ s ++ "\"")
  | _ + 1, .jnumber d => some (dblToString d)
  | n + 1, .jobject props =>
      (propsToStringFuel n props).map (fun body => "\x7b" ++ body ++ "\x7d")
  | n + 1, .jarray vs =>
      (elemsToStringFuel n vs).map (fun body => "[" ++ body ++ "]")

/-- Fuel-bounded loop of `JsonObject::toString`; each entry's value is
serialized with the loop's fuel budget. -/
def propsToStringFuel : Nat → List (String × JsonValue Dbl) → Option String
  | _, [] => some ""
  | n, (k, v) :: rest => do
      let sv ← toStringFuel n v
      let sr ← propsToStringFuel n rest
      pure (k ++ ":" ++ sv ++ "," ++ sr)

/-- Fuel-bounded loop of `JsonArray::toString`. -/
def elemsToStringFuel : Nat → List (JsonValue Dbl) → Option String
  | _, [] => some ""
  | n, v :: rest => do
      let sv ← toStringFuel n v
      let sr ← elemsToStringFuel n rest
      pure (sv ++ "," ++ sr)

end

/-! ### Helper lemmas -/

/-- Appending one more string under `String.join`. -/
theorem join_cons (a : String) (l : List String) :
    String.join (a :: l) = a ++ String.join l := by
  apply String.ext
  simp [String.join_eq]

/-- The object serialization loop concatenates, entry by entry in
iteration order, the rendering `key:value,` of each entry. -/
theorem propsToString_join (props : List (String × JsonValue Dbl)) :
    propsToString Dbl dblToString props =
      String.join (props.map
        (fun p => p.1 ++ ":" ++ JsonValue.toString Dbl dblToString p.2 ++ ",")) := by
  induction props with
  | nil => rfl
  | cons p rest ih =>
      obtain ⟨k, v⟩ := p
      simp [propsToString, join_cons, ih]

/-- The array serialization loop concatenates, element by element in
insertion order, the rendering `value,` of each element. -/
theorem elemsToString_join (vs : List (JsonValue Dbl)) :
    elemsToString Dbl dblToString vs =
      String.join (vs.map (fun v => JsonValue.toString Dbl dblToString v ++ ",")) := by
  induction vs with
  | nil => rfl
  | cons v rest ih =>
      simp [elemsToString, join_cons, ih]

mutual

/-- The instrumented call returns the same string as `toString` and hands
the receiver tree back unchanged. -/
theorem toStringM_eq (t : JsonValue Dbl) :
    toStringM Dbl dblToString t = (JsonValue.toString Dbl dblToString t, t) := by
  cases t with
  | jnull => simp [toStringM, JsonValue.toString]
  | jboolean b => simp [toStringM, JsonValue.toString]
  | jstring s => simp [toStringM, JsonValue.toString]
  | jnumber d => simp [toStringM, JsonValue.toString]
  | jobject props =>
      have h := propsToStringM_eq props
      simp [toStringM, JsonValue.toString, h]
  | jarray vs =>
      have h := elemsToStringM_eq vs
      simp [toStringM, JsonValue.toString, h]

/-- The instrumented object loop returns the same string as the plain
loop and hands the entry list back unchanged. -/
theorem propsToStringM_eq (props : List (String × JsonValue Dbl)) :
    propsToStringM Dbl dblToString props =
      (propsToString Dbl dblToString props, props) := by
  cases props with
  | nil => simp [propsToStringM, propsToString]
  | cons p rest =>
      obtain ⟨k, v⟩ := p
      have hv := toStringM_eq v
      have hr := propsToStringM_eq rest
      simp [propsToStringM, propsToString, hv, hr]

/-- The instrumented array loop returns the same string as the plain loop
and hands the element list back unchanged. -/
theorem elemsToStringM_eq (vs : List (JsonValue Dbl)) :
    elemsToStringM Dbl dblToString vs =
      (elemsToString Dbl dblToString vs, vs) := by
  cases vs with
  | nil => simp [elemsToStringM, elemsToString]
  | cons v rest =>
      have hv := toStringM_eq v
      have hr := elemsToStringM_eq rest
      simp [elemsToStringM, elemsToString, hv, hr]

end

/-- With fuel strictly above the recursion depth, the fuel-bounded
serializer succeeds and agrees with `toString`; likewise for the two
loops. -/
theorem toStringFuel_adequate (n : Nat) :
    (∀ t : JsonValue Dbl, height Dbl t < n →
      toStringFuel Dbl dblToString n t = some (JsonValue.toString Dbl dblToString t)) ∧
    (∀ props : List (String × JsonValue Dbl), heightProps Dbl props < n →
      propsToStringFuel Dbl dblToString n props =
        some (propsToString Dbl dblToString props)) ∧
    (∀ vs : List (JsonValue Dbl), heightElems Dbl vs < n →
      elemsToStringFuel Dbl dblToString n vs =
        some (elemsToString Dbl dblToString vs)) := by
  induction n with
  | zero =>
      exact ⟨fun t h => absurd h (Nat.not_lt_zero _),
        fun props h => absurd h (Nat.not_lt_zero _),
        fun vs h => absurd h (Nat.not_lt_zero _)⟩
  | succ n ih =>
      obtain ⟨ihT, ihP, ihE⟩ := ih
      have hT : ∀ t : JsonValue Dbl, height Dbl t < n + 1 →
          toStringFuel Dbl dblToString (n + 1) t =
            some (JsonValue.toString Dbl dblToString t) := by
        intro t ht
        cases t with
        | jnull => simp [toStringFuel, JsonValue.toString]
        | jboolean b => simp [toStringFuel, JsonValue.toString]
        | jstring s => simp [toStringFuel, JsonValue.toString]
        | jnumber d => simp [toStringFuel, JsonValue.toString]
        | jobject props =>
            have hp : heightProps Dbl props < n := by
              simp [height] at ht; omega
            simp [toStringFuel, JsonValue.toString, ihP props hp]
        | jarray vs =>
            have he : heightElems Dbl vs < n := by
              simp [height] at ht; omega
            simp [toStringFuel, JsonValue.toString, ihE vs he]
      refine ⟨hT, ?_, ?_⟩
      · intro props
        induction props with
        | nil => intro hp; simp [propsToStringFuel, propsToString]
        | cons p rest ihrest =>
            intro hp
            obtain ⟨k, v⟩ := p
            have hv : height Dbl v < n + 1 := by
              simp [heightProps] at hp; omega
            have hr : heightProps Dbl rest < n + 1 := by
              simp [heightProps] at hp; omega
            simp [propsToStringFuel, propsToString, hT v hv, ihrest hr]
      · intro vs
        induction vs with
        | nil => intro he; simp [elemsToStringFuel, elemsToString]
        | cons v rest ihrest =>
            intro he
            have hv : height Dbl v < n + 1 := by
              simp [heightElems] at he; omega
            have hr : heightElems Dbl rest < n + 1 := by
              simp [heightElems] at he; omega
            simp [elemsToStringFuel, elemsToString, hT v hv, ihrest hr]

/-! ### Claims -/

/-- C1: for every Array value, `toString` returns `[` followed by, for
each element in insertion order, that element's `toString` output
followed by a comma (every element, the last included, is followed by a
comma), followed by `]`; the empty Array yields exactly `"[]"`. -/
theorem spec_C1 (vs : List (JsonValue Dbl)) :
    JsonValue.toString Dbl dblToString (.jarray vs) =
      "[" ++ String.join
        (vs.map (fun v => JsonValue.toString Dbl dblToString v ++ ",")) ++ "]" ∧
    JsonValue.toString Dbl dblToString (.jarray []) = "[]" := by
  constructor
  · simp [JsonValue.toString, elemsToString_join]
  · simp [JsonValue.toString, elemsToString]

/-- C2: for every Object value, `toString` returns `{` followed by, for
each stored entry in iteration order, the raw unquoted key, `:`, the
value's `toString` output and a trailing comma, followed by `}`; the
empty Object yields exactly `"{}"`. -/
theorem spec_C2 (props : List (String × JsonValue Dbl)) :
    JsonValue.toString Dbl dblToString (.jobject props) =
      "\x7b" ++ String.join
        (props.map (fun p =>
          p.1 ++ ":" ++ JsonValue.toString Dbl dblToString p.2 ++ ",")) ++ "\x7d" ∧
    JsonValue.toString Dbl dblToString (.jobject []) = "\x7b\x7d" := by
  constructor
  · simp [JsonValue.toString, propsToString_join]
  · simp [JsonValue.toString, propsToString]

/-- C3: for every String value with content `s`, `toString` returns a
quote character, then the characters of `s` completely unescaped, then a
closing quote character. -/
theorem spec_C3 (s : String) :
    JsonValue.toString Dbl dblToString (.jstring s) = "\"" ++ s ++ "\"" ∧
    (JsonValue.toString Dbl dblToString (.jstring s)).data =
      '\"' :: (s.data ++ ['\"']) := by
  constructor
  · simp [JsonValue.toString]
  · simp [JsonValue.toString, String.data_append]

/-- C4: for every Boolean value `b`, `toString` returns exactly `"true"`
when `b` is true and exactly `"false"` when `b` is false. -/
theorem spec_C4 (b : Bool) :
    JsonValue.toString Dbl dblToString (.jboolean b) =
      (if b then "true" else "false") ∧
    JsonValue.toString Dbl dblToString (.jboolean true) = "true" ∧
    JsonValue.toString Dbl dblToString (.jboolean false) = "false" := by
  refine ⟨?_, ?_, ?_⟩ <;> simp [JsonValue.toString]

/-- C5: the Array built from the empty Array by `add` of the String
`"s3"` and `add` of the Number `3.3` serializes to exactly
`["s3",3.3,]`, with `3.3` rendered by the host's default
double-to-text conversion (which renders it as the text `3.3`). -/
theorem spec_C5 (d : Dbl) (h : dblToString d = "3.3") :
    JsonValue.toString Dbl dblToString
      (.jarray (JsonArray.add Dbl (JsonArray.add Dbl [] (.jstring "s3"))
        (.jnumber d))) = "[\"s3\",3.3,]" := by
  simp [JsonArray.add, JsonValue.toString, elemsToString, h]

/-- Closed instance of C5 with the rendered-text model of doubles. -/
theorem spec_C5_witness :
    (fun s : String => s) "3.3" = "3.3" ∧
    JsonValue.toString String (fun s => s)
      (.jarray (JsonArray.add String (JsonArray.add String [] (.jstring "s3"))
        (.jnumber "3.3"))) = "[\"s3\",3.3,]" :=
  ⟨rfl, spec_C5 String (fun s => s) "3.3" rfl⟩

/-- C6: `JsonArray::add` appends the new value after all previously added
elements: the length grows by one, every previously stored index holds
what it held before, and the new value sits at the old length. -/
theorem spec_C6 (vs : List (JsonValue Dbl)) (v : JsonValue Dbl) :
    (JsonArray.add Dbl vs v).length = vs.length + 1 ∧
    (∀ i : Nat, i < vs.length → (JsonArray.add Dbl vs v)[i]? = vs[i]?) ∧
    (JsonArray.add Dbl vs v)[vs.length]? = some v := by
  refine ⟨by simp [JsonArray.add], ?_, ?_⟩
  · intro i hi
    simp [JsonArray.add, List.getElem?_append, hi]
  · simp [JsonArray.add]

/-- Closed instance of C6 on a one-element array. -/
theorem spec_C6_witness :
    (JsonArray.add Unit [JsonValue.jnull] (JsonValue.jboolean true))[0]? =
      some JsonValue.jnull := by
  have h := (spec_C6 Unit [JsonValue.jnull] (JsonValue.jboolean true)).2.1 0
    (by decide)
  simpa using h

/-- C7: calling `toString` leaves the receiver tree, descendants
included, exactly as it was, and the produced string is the serialization
of that unchanged tree. -/
theorem spec_C7 (t : JsonValue Dbl) :
    (toStringM Dbl dblToString t).2 = t ∧
    (toStringM Dbl dblToString t).1 = JsonValue.toString Dbl dblToString t := by
  simp [toStringM_eq]

/-- C8: `toString` is deterministic: a second call on the tree as it
stands after a first call produces the same string as the first call. -/
theorem spec_C8 (t : JsonValue Dbl) :
    (toStringM Dbl dblToString ((toStringM Dbl dblToString t).2)).1 =
      (toStringM Dbl dblToString t).1 := by
  simp [toStringM_eq]

/-- C9: serialization terminates on every finite tree: fuel one larger
than the tree's recursion depth suffices for the fuel-bounded serializer
to run to completion and deliver `toString`'s result. -/
theorem spec_C9 (t : JsonValue Dbl) :
    toStringFuel Dbl dblToString (height Dbl t + 1) t =
      some (JsonValue.toString Dbl dblToString t) :=
  (toStringFuel_adequate Dbl dblToString (height Dbl t + 1)).1 t
    (Nat.lt_succ_self _)

/-- C10: inserting under a key the object already holds is a silent
no-op: the stored entries are exactly as before, the old value stays
present under the key, and the entry count does not change (first-wins). -/
theorem spec_C10 (props : List (String × JsonValue Dbl)) (k : String)
    (v w : JsonValue Dbl) (h : (k, v) ∈ props) :
    JsonObject.add Dbl props k w = props ∧
    (k, v) ∈ JsonObject.add Dbl props k w ∧
    (JsonObject.add Dbl props k w).length = props.length := by
  have hany : props.any (fun p => p.1 == k) = true :=
    List.any_eq_true.mpr ⟨(k, v), h, by simp⟩
  refine ⟨?_, ?_, ?_⟩ <;> simp [JsonObject.add, hany, h]

/-- Closed instance of C10 on a singleton object. -/
theorem spec_C10_witness :
    (("a", JsonValue.jnull) ∈
      ([("a", JsonValue.jnull)] : List (String × JsonValue Unit))) ∧
    JsonObject.add Unit [("a", JsonValue.jnull)] "a" (JsonValue.jboolean true) =
      [("a", JsonValue.jnull)] := by
  have hmem : (("a", JsonValue.jnull) ∈
      ([("a", JsonValue.jnull)] : List (String × JsonValue Unit))) :=
    List.mem_singleton.mpr rfl
  exact ⟨hmem, (spec_C10 Unit [("a", JsonValue.jnull)] "a" JsonValue.jnull
    (JsonValue.jboolean true) hmem).1⟩

end JsonCpp
